import Mathlib

/-!
Verification development for the goevals ingestion and aggregation engine
(`main.go`).  The definitions below are a shallow embedding of the Go source:

* Go `float64` scores are modelled as `ℚ` (the JSON literals the engine reads
  are finite decimals; none of the properties studied here depend on binary
  rounding).
* Go maps are modelled either as association lists (`List (String × _)`) for
  decoded JSON objects, or as functions `String → _` for the accumulator maps
  built by `CalculateStats` (lookup-only use).
* JSON values are modelled to the nesting depth the engine inspects: scalars
  at every level, plus one level of object nesting for the `scores` and
  `metadata` containers and for custom top-level fields.  Arrays and deeper
  nesting never influence the behaviour studied here.
* Go string comparison (`<`, `sort.Strings`) is byte-wise lexicographic on
  UTF-8, which coincides with code-point order; it is modelled by `charsLt`
  on `String.data`.
-/

/-- A decoded JSON scalar, i.e. what lands in a Go `interface\x7b\x7d` slot after
`json.Unmarshal`: every JSON number becomes a `float64` (here `ℚ`), strings
stay strings, booleans stay booleans, `null` becomes the nil interface. -/
inductive GoVal where
  | num (q : ℚ)
  | str (s : String)
  | bool (b : Bool)
  | null
deriving DecidableEq

/-- The value of one top-level field of a decoded record: either a scalar or
one object level (used by `scores`, `metadata`, and object-valued custom
fields). -/
inductive RawField where
  | scalar (v : GoVal)
  | obj (entries : List (String × GoVal))
deriving DecidableEq

/-- A structurally decoded JSON line: the `map[string]interface\x7b\x7d` that
`json.Unmarshal` produces for a JSON object.  Keys are unique (Go maps). -/
def RawObj : Type := List (String × RawField)

instance : DecidableEq RawObj := by
  unfold RawObj
  infer_instance

/-- One input line handed to `ParseJSONL`: `none` models a line that fails
structural JSON decoding (not a JSON object / malformed text), `some fs`
models a line that decodes to the object `fs`. -/
def LineInput : Type := Option RawObj

instance : DecidableEq LineInput := by
  unfold LineInput
  infer_instance

/-- Byte-wise (= code-point-wise) lexicographic strict order on char lists,
modelling Go string `<`. -/
def charsLt : List Char → List Char → Bool
  | [], [] => false
  | [], _ :: _ => true
  | _ :: _, [] => false
  | a :: as, b :: bs => if a < b then true else if b < a then false else charsLt as bs

/-- Go string strict comparison `a < b`. -/
def strLt (a b : String) : Bool := charsLt a.data b.data

/-- Go string comparison `a <= b` (as used by `sort.Strings`). -/
def strLe (a b : String) : Bool := !(charsLt b.data a.data)

/-- Insertion step of the sort modelling `sort.Strings`. -/
def insertLe (x : String) : List String → List String
  | [] => [x]
  | y :: ys => if strLe x y then x :: y :: ys else y :: insertLe x ys

/-- Sorting a list of strings in Go's byte-lexicographic order, modelling
`sort.Strings`.  (On the duplicate-free key lists the engine sorts, any
correct sort produces the same list, so insertion sort is a faithful model.) -/
def sortStrings (l : List String) : List String := l.foldr insertLe []

/-- Fuel-bounded search for the smallest exponent `k` with `den ∣ 10 ^ k`. -/
def pow10ExpAux (den : ℕ) : ℕ → ℕ → ℕ
  | 0, k => k
  | fuel + 1, k => if 10 ^ k % den = 0 then k else pow10ExpAux den fuel (k + 1)

/-- Smallest exponent `k` with `den ∣ 10 ^ k`, used to print a rational as a
finite decimal.  All rationals produced by decoding JSON literals have
denominators dividing a power of ten (any `float64` denominator divides
`10 ^ 1100`, so the fuel never runs out on reachable values). -/
def pow10Exp (den : ℕ) : ℕ := pow10ExpAux den 1100 0

/-- Digits of `n` with a decimal point `k` places from the right, zero padded
on the left (`natDecimalString 5 1 = "0.5"`, `natDecimalString 5 0 = "5"`). -/
def natDecimalString (n k : ℕ) : String :=
  let ds := (Nat.repr n).data
  let ds := if ds.length ≤ k then List.replicate (k + 1 - ds.length) '0' ++ ds else ds
  if k = 0 then String.mk ds
  else String.mk (ds.take (ds.length - k) ++ '.' :: ds.drop (ds.length - k))

/-- Model of Go `fmt`'s `%v` for a `float64` (`strconv.FormatFloat _ 'g' -1 64`)
in its plain-decimal regime: the shortest decimal digits, no trailing zeros,
no decimal point for integers (`5 → "5"`, `0.5 → "0.5"`).  The exponent regime
(magnitudes at or above 1e21 or below 1e-4) is not distinguished; no property
studied here touches it. -/
def formatRat (q : ℚ) : String :=
  let sign := if q < 0 then "-" else ""
  let a := |q|
  let k := pow10Exp a.den
  sign ++ natDecimalString (a.num * (10 : ℤ) ^ k / (a.den : ℤ)).toNat k

/-- Go `fmt` `%v` of a decoded scalar (`nil` interface prints `<nil>`). -/
def formatGoVal : GoVal → String
  | .num q => formatRat q
  | .str s => s
  | .bool b => if b then "true" else "false"
  | .null => "<nil>"

/-- Go `fmt` `%v` of a decoded `map[string]interface\x7b\x7d`: sorted keys,
space separated `k:v` entries inside `map[...]`. -/
def formatGoMap (entries : List (String × GoVal)) : String :=
  let ks := sortStrings (entries.map Prod.fst)
  let body := ks.foldl (fun (acc : String × Bool) k =>
    let v := match entries.lookup k with
      | some v => formatGoVal v
      | none => "<nil>"
    (acc.1 ++ (if acc.2 then " " else "") ++ k ++ ":" ++ v, true)) ("", false)
  "map[" ++ body.1 ++ "]"

/-- Go `fmt` `%v` of one raw field value. -/
def formatRawField : RawField → String
  | .scalar v => formatGoVal v
  | .obj entries => formatGoMap entries

/-- `ScoreBreakdown` (main.go): the decoded metric container.  `custom` models
the `Custom map[string]float64`; keys are unique. -/
structure ScoreBreakdown where
  combined : ℚ
  custom : List (String × ℚ)
deriving DecidableEq

/-- `EvalResult` (main.go): one decoded record.  `customFields` models the
`CustomFields map[string]any` of unknown top-level fields; keys are unique. -/
structure EvalResult where
  timestamp : String
  model : String
  testID : String
  question : String
  response : String
  expected : String
  scores : ScoreBreakdown
  responseTimeMS : ℤ
  metadata : Option (List (String × GoVal))
  judgeModel : String
  judgeFactualReasoning : String
  judgeFaithfulReasoning : String
  judgeContextReasoning : String
  customFields : List (String × RawField)
deriving DecidableEq

/-- The `knownFields` set of main.go: top-level names that map to struct
fields; every other top-level field becomes a custom field. -/
def knownFieldNames : List String :=
  ["timestamp", "model", "test_id", "question", "response", "expected",
   "scores", "response_time_ms", "metadata", "judge_model",
   "judge_factual_reasoning", "judge_faithful_reasoning",
   "judge_context_reasoning"]

/-- Decoding a `string`-typed struct field from the raw object: absent or
`null` leaves the zero value `""`; a non-string value is a decode error that
fails the whole record (Go `json.Unmarshal` behaviour). -/
def decStrField (fs : RawObj) (name : String) : Except Unit String :=
  match fs.lookup name with
  | none => .ok ""
  | some (.scalar (.str s)) => .ok s
  | some (.scalar .null) => .ok ""
  | some _ => .error ()

/-- Decoding the `response_time_ms` `int64` field: absent or `null` gives 0;
a non-integral or non-numeric value is a decode error. -/
def decInt64Field (fs : RawObj) (name : String) : Except Unit ℤ :=
  match fs.lookup name with
  | none => .ok 0
  | some (.scalar .null) => .ok 0
  | some (.scalar (.num q)) => if q.den = 1 then .ok q.num else .error ()
  | some _ => .error ()

/-- `ScoreBreakdown.UnmarshalJSON` (main.go): on a JSON object, take
`combined` if it is a number (else leave the zero value 0), and keep every
other numeric entry as a custom score; non-numeric entries are silently
discarded.  `null` leaves the zero value; any other JSON value is a decode
error. -/
def decodeScores : Option RawField → Except Unit ScoreBreakdown
  | none => .ok ⟨0, []⟩
  | some (.scalar .null) => .ok ⟨0, []⟩
  | some (.scalar _) => .error ()
  | some (.obj entries) =>
      .ok ⟨(match entries.lookup "combined" with
            | some (.num q) => q
            | _ => 0),
           entries.filterMap (fun p =>
             if p.1 = "combined" then none
             else match p.2 with
               | .num q => some (p.1, q)
               | _ => none)⟩

/-- Decoding the `metadata` map field: absent or `null` gives `none` (nil
map); an object decodes; any scalar is a decode error. -/
def decodeMetadata : Option RawField → Except Unit (Option (List (String × GoVal)))
  | none => .ok none
  | some (.scalar .null) => .ok none
  | some (.obj entries) => .ok (some entries)
  | some (.scalar _) => .error ()

/-- `EvalResult.UnmarshalJSON` (main.go): decode the known fields into the
struct and capture every top-level field outside `knownFields` as a custom
field.  Any type mismatch on a known field fails the whole record. -/
def decodeRecord (fs : RawObj) : Except Unit EvalResult := do
  let timestamp ← decStrField fs "timestamp"
  let model ← decStrField fs "model"
  let testID ← decStrField fs "test_id"
  let question ← decStrField fs "question"
  let response ← decStrField fs "response"
  let expected ← decStrField fs "expected"
  let scores ← decodeScores (fs.lookup "scores")
  let responseTimeMS ← decInt64Field fs "response_time_ms"
  let metadata ← decodeMetadata (fs.lookup "metadata")
  let judgeModel ← decStrField fs "judge_model"
  let judgeFactual ← decStrField fs "judge_factual_reasoning"
  let judgeFaithful ← decStrField fs "judge_faithful_reasoning"
  let judgeContext ← decStrField fs "judge_context_reasoning"
  .ok { timestamp := timestamp, model := model, testID := testID,
        question := question, response := response, expected := expected,
        scores := scores, responseTimeMS := responseTimeMS,
        metadata := metadata, judgeModel := judgeModel,
        judgeFactualReasoning := judgeFactual,
        judgeFaithfulReasoning := judgeFaithful,
        judgeContextReasoning := judgeContext,
        customFields := fs.filter (fun p => !(knownFieldNames.contains p.1)) }

/-- One line through the decoder: structural failure or a record decode
error both make `ParseJSONL` skip the line. -/
def decodeLine (l : LineInput) : Option EvalResult :=
  match l with
  | none => none
  | some fs => (decodeRecord fs).toOption

/-- `ParseJSONL` (main.go): decode each line, skipping (with a diagnostic)
every line whose decoding fails. -/
def ParseJSONL (lines : List LineInput) : List EvalResult :=
  lines.filterMap decodeLine

/-- Number of input lines `ParseJSONL` skips. -/
def skippedCount (lines : List LineInput) : ℕ :=
  (lines.filter (fun l => (decodeLine l).isNone)).length

/-- The deny-list of `buildConfigKey` (main.go): per-observation metadata
excluded from the grouping key. -/
def excludedFieldNames : List String := ["question_id", "test_run_date"]

/-- The custom field names of a record that participate in the grouping key,
in Go's sorted order. -/
def keyFieldNames (r : EvalResult) : List String :=
  sortStrings ((r.customFields.map Prod.fst).filter
    (fun n => !(excludedFieldNames.contains n)))

/-- The `%v` text of the custom field `n` of `r`, as interpolated into the
key (a missing name would be a nil interface, printing `<nil>`; in the engine
the names always come from the same map, so this case never fires). -/
def keyFieldValue (r : EvalResult) (n : String) : String :=
  match r.customFields.lookup n with
  | some v => formatRawField v
  | none => "<nil>"

/-- `buildConfigKey` (main.go): the grouping key — the model name followed by
`|name=value` for each non-excluded custom field, names in sorted order. -/
def buildConfigKey (r : EvalResult) : String :=
  (keyFieldNames r).foldl
    (fun key n => key ++ "|" ++ n ++ "=" ++ keyFieldValue r n) r.model

/-- `ModelStat` (main.go): the published per-group statistics.  The
`CustomScores` and `CustomFields` maps are modelled as functions returning
`none` on absent keys. -/
structure ModelStat where
  model : String
  actualModelName : String
  testCount : ℕ
  avgScore : ℚ
  minScore : ℚ
  maxScore : ℚ
  customScores : String → Option ℚ
  avgTimeMS : ℚ
  customFields : String → Option String

/-- `DashboardData` (main.go): the frozen aggregation result of one refresh.
The `ModelStats` and `CustomFieldTypes` maps are modelled as functions
returning `none` on absent keys. -/
structure DashboardData where
  totalTests : ℕ
  avgScore : ℚ
  models : List String
  results : List EvalResult
  modelStats : String → Option ModelStat
  customScores : List String
  customFieldNames : List String
  customFieldTypes : String → Option String

/-- The running state of the single aggregation pass of `CalculateStats`:
the set-like name lists and the per-key accumulator maps of the Go loop. -/
structure StatsAcc where
  configList : List String
  scoreTypeList : List String
  fieldNameList : List String
  configScores : String → List ℚ
  configTimes : String → List ℚ
  configCustomScores : String → String → List ℚ
  configCustomFields : String → String → Option String
  fieldTypes : String → Option String
  totalScore : ℚ

/-- Empty accumulator (the freshly made maps of `CalculateStats`). -/
def initAcc : StatsAcc :=
  { configList := [], scoreTypeList := [], fieldNameList := [],
    configScores := fun _ => [], configTimes := fun _ => [],
    configCustomScores := fun _ _ => [],
    configCustomFields := fun _ _ => none,
    fieldTypes := fun _ => none, totalScore := 0 }

/-- Adding a key to a set-like list (`set[k] = true` on a Go map, with
first-seen order; the order is erased by the later sort). -/
def addName (l : List String) (n : String) : List String :=
  if n ∈ l then l else l ++ [n]

/-- The Go type-name switch of `CalculateStats` for a custom field value:
`float64 → "number"`, `bool → "bool"`, anything else `"string"`. -/
def goTypeName : RawField → String
  | .scalar (.num _) => "number"
  | .scalar (.bool _) => "bool"
  | _ => "string"

/-- Inner loop of the pass over one record's custom scores: register the
score type and append the value to the group's list for that type. -/
def stepCustomScore (key : String) (a : StatsAcc) (p : String × ℚ) : StatsAcc :=
  { a with
    scoreTypeList := addName a.scoreTypeList p.1,
    configCustomScores := fun k st =>
      if k = key ∧ st = p.1 then a.configCustomScores k st ++ [p.2]
      else a.configCustomScores k st }

/-- Inner loop of the pass over one record's custom fields: register the
field name, remember the first value seen for this group and field, and fix
the field's type on first sighting. -/
def stepCustomField (key : String) (a : StatsAcc) (p : String × RawField) : StatsAcc :=
  { a with
    fieldNameList := addName a.fieldNameList p.1,
    configCustomFields := fun k fn =>
      if k = key ∧ fn = p.1 then
        match a.configCustomFields k fn with
        | some v => some v
        | none => some (formatRawField p.2)
      else a.configCustomFields k fn,
    fieldTypes := fun fn =>
      if fn = p.1 then
        match a.fieldTypes fn with
        | some t => some t
        | none => some (goTypeName p.2)
      else a.fieldTypes fn }

/-- One iteration of the main loop of `CalculateStats`: resolve the record's
group key, add its primary score and time to that group, then fold its custom
scores and custom fields. -/
def recordStep (acc : StatsAcc) (r : EvalResult) : StatsAcc :=
  let key := buildConfigKey r
  let acc1 : StatsAcc :=
    { acc with
      configList := addName acc.configList key,
      totalScore := acc.totalScore + r.scores.combined,
      configScores := fun k =>
        if k = key then acc.configScores k ++ [r.scores.combined]
        else acc.configScores k,
      configTimes := fun k =>
        if k = key then acc.configTimes k ++ [(r.responseTimeMS : ℚ)]
        else acc.configTimes k }
  let acc2 := r.scores.custom.foldl (stepCustomScore key) acc1
  r.customFields.foldl (stepCustomField key) acc2

/-- The model name displayed for a config key: everything before the first
`|` (the whole key if there is none). -/
def actualModelName (key : String) : String :=
  String.mk (key.data.takeWhile (fun c => c ≠ '|'))

/-- The per-group finalization of `CalculateStats`: `none` for an empty score
list (the `continue` branch), otherwise count, mean, min, max, per-custom-score
means and first-seen field values. -/
def finalizeStat (acc : StatsAcc) (key : String) : Option ModelStat :=
  match acc.configScores key with
  | [] => none
  | s0 :: rest =>
    let scores := s0 :: rest
    let times := acc.configTimes key
    let sum := scores.foldl (fun a s => a + s) 0
    let mn := scores.foldl (fun m s => if s < m then s else m) s0
    let mx := scores.foldl (fun m s => if m < s then s else m) s0
    let timeSum := times.foldl (fun a t => a + t) 0
    some { model := key,
           actualModelName := actualModelName key,
           testCount := scores.length,
           avgScore := sum / (scores.length : ℚ),
           minScore := mn,
           maxScore := mx,
           customScores := fun st =>
             match acc.configCustomScores key st with
             | [] => none
             | l => some ((l.foldl (fun a v => a + v) 0) / (l.length : ℚ)),
           avgTimeMS := timeSum / (times.length : ℚ),
           customFields := acc.configCustomFields key }

/-- `CalculateStats` (main.go): the full aggregation pass — early return on
an empty input, otherwise one fold over the records followed by sorting the
discovered names and finalizing each group. -/
def CalculateStats (results : List EvalResult) : DashboardData :=
  let base : DashboardData :=
    { totalTests := results.length, avgScore := 0, models := [],
      results := results, modelStats := fun _ => none, customScores := [],
      customFieldNames := [], customFieldTypes := fun _ => none }
  if results.isEmpty then base
  else
    let acc := results.foldl recordStep initAcc
    { base with
      avgScore := acc.totalScore / (results.length : ℚ),
      models := sortStrings acc.configList,
      customScores := sortStrings acc.scoreTypeList,
      customFieldNames := sortStrings acc.fieldNameList,
      customFieldTypes := acc.fieldTypes,
      modelStats := fun k =>
        if k ∈ sortStrings acc.configList then finalizeStat acc k else none }

/-- One configured record store as `reloadData` sees it: unreadable
(`ParseJSONL` returned an error) or a list of raw lines. -/
def StoreInput : Type := Except Unit (List LineInput)

/-- The concatenation step of `reloadData`: unreadable stores are skipped
with a diagnostic, the rest are parsed and appended in source order. -/
def allStoreResults (stores : List StoreInput) : List EvalResult :=
  stores.foldl (fun acc s =>
    match s with
    | .error _ => acc
    | .ok lines => acc ++ ParseJSONL lines) []

/-- `reloadData` (main.go): re-read every store and publish a fresh result;
with zero decoded records it publishes the explicit empty result (it never
keeps the previous one, which is passed here only to show it is unused) and
it always returns without error. -/
def reloadData (stores : List StoreInput) (prev : DashboardData) :
    Except Unit DashboardData :=
  let allResults := allStoreResults stores
  let _ := prev
  if allResults.isEmpty then .ok (CalculateStats [])
  else .ok (CalculateStats allResults)

/-- The filtering core of `evalsSinceHandler` (main.go): keep exactly the
records whose timestamp compares strictly greater than the query timestamp. -/
def evalsSince (results : List EvalResult) (ts : String) : List EvalResult :=
  results.filter (fun r => strLt ts r.timestamp)
/-- The pairwise ordering predicate established by `sortStrings`. -/
def StrSorted (l : List String) : Prop := l.Pairwise (fun a b => strLe a b = true)

/-- The (name, formatted value) pairs that `buildConfigKey` appends after the
model name, in their sorted order. -/
def keyPairs (r : EvalResult) : List (String × String) :=
  (keyFieldNames r).map (fun n => (n, keyFieldValue r n))

/-- One `|name=value` segment of a grouping key. -/
def segString (p : String × String) : String := "|" ++ p.1 ++ "=" ++ p.2

/-- The suffix of a grouping key after the model name. -/
def encodePairs (ps : List (String × String)) : String :=
  ps.foldl (fun s p => s ++ segString p) ""

/-- Char-level form of one key segment. -/
def segChars (p : List Char × List Char) : List Char :=
  '|' :: p.1 ++ '=' :: p.2

/-- Char-level form of a key suffix. -/
def encodeChars (ps : List (List Char × List Char)) : List Char :=
  ps.flatMap segChars

/-- A key pair whose name is free of both delimiter characters and whose
formatted value is free of the segment delimiter. -/
def GoodPair (p : String × String) : Prop :=
  '|' ∉ p.1.data ∧ '=' ∉ p.1.data ∧ '|' ∉ p.2.data

instance (p : String × String) : Decidable (GoodPair p) := by
  unfold GoodPair
  infer_instance

/-- The primary-metric values of the members of group `k`, in input order. -/
def groupScores (results : List EvalResult) (k : String) : List ℚ :=
  (results.filter (fun r => buildConfigKey r = k)).map (fun r => r.scores.combined)

/-- The values that the members of group `k` supply for the secondary metric
`st` (records without the metric contribute nothing). -/
def groupCustomScores (results : List EvalResult) (k st : String) : List ℚ :=
  (results.filter (fun r => buildConfigKey r = k)).filterMap
    (fun r => r.scores.custom.lookup st)

/-- Following the spec's words (not the source): the number of input lines
that decode structurally as JSON but whose primary metric (`combined` inside
`scores`) is absent or non-numeric — the lines the spec calls semantically
invalid and claims are dropped. -/
def specSemanticallyInvalidCount (lines : List LineInput) : ℕ :=
  (lines.filter (fun l =>
    match l with
    | none => false
    | some fs =>
      match fs.lookup "scores" with
      | some (.obj entries) =>
        match entries.lookup "combined" with
        | some (.num _) => false
        | _ => true
      | _ => true)).length

/-- A minimal decoded record used to instantiate theorems on concrete
inputs. -/
def baseRec : EvalResult :=
  { timestamp := "t1", model := "m", testID := "", question := "",
    response := "", expected := "", scores := ⟨1, []⟩, responseTimeMS := 0,
    metadata := none, judgeModel := "", judgeFactualReasoning := "",
    judgeFaithfulReasoning := "", judgeContextReasoning := "",
    customFields := [] }

/-- A well-formed input line with a numeric `combined` score. -/
def goodLine : RawObj :=
  [("timestamp", .scalar (.str "t1")), ("model", .scalar (.str "m")),
   ("scores", .obj [("combined", .num 1)])]

/-- A structurally valid input line whose `scores` object has no `combined`
entry. -/
def noCombinedLine : RawObj :=
  [("timestamp", .scalar (.str "t2")), ("model", .scalar (.str "m")),
   ("scores", .obj [("accuracy", .num 1)])]

/-- The record that `noCombinedLine` decodes to: the primary metric defaults
to 0 and the non-`combined` score is kept as a custom score. -/
def noCombRec : EvalResult :=
  { baseRec with timestamp := "t2", scores := ⟨0, [("accuracy", 1)]⟩ }

-- infra block 1: charsLt order facts
lemma charsLt_asymm : ∀ as bs : List Char, charsLt as bs = true → charsLt bs as = false := by
  intro as
  induction as with
  | nil =>
    intro bs h
    cases bs with
    | nil => simp [charsLt] at h
    | cons b bs => simp [charsLt]
  | cons a as ih =>
    intro bs h
    cases bs with
    | nil => simp [charsLt] at h
    | cons b bs =>
      simp only [charsLt] at h ⊢
      by_cases hab : a < b
      · simp [hab, asymm hab, lt_irrefl]
      · by_cases hba : b < a
        · simp [hab, hba] at h
        · simp only [hab, hba, if_false] at h ⊢
          simp [ih bs h]
lemma eq_of_charsLt_false : ∀ as bs : List Char,
    charsLt as bs = false → charsLt bs as = false → as = bs := by
  intro as
  induction as with
  | nil =>
    intro bs h _
    cases bs with
    | nil => rfl
    | cons b bs => simp [charsLt] at h
  | cons a as ih =>
    intro bs h h2
    cases bs with
    | nil => simp [charsLt] at h2
    | cons b bs =>
      simp only [charsLt] at h h2
      by_cases hab : a < b
      · simp [hab] at h
      · by_cases hba : b < a
        · simp [hab, hba] at h2
        · simp only [hab, hba, if_false] at h h2
          have : a = b := le_antisymm (not_lt.mp hba) (not_lt.mp hab)
          rw [this, ih bs h h2]
lemma charsLt_trans : ∀ as bs cs : List Char,
    charsLt as bs = true → charsLt bs cs = true → charsLt as cs = true := by
  intro as
  induction as with
  | nil =>
    intro bs cs h1 h2
    cases bs with
    | nil => simp [charsLt] at h1
    | cons b bs =>
      cases cs with
      | nil => simp [charsLt] at h2
      | cons c cs => simp [charsLt]
  | cons a as ih =>
    intro bs cs h1 h2
    cases bs with
    | nil => simp [charsLt] at h1
    | cons b bs =>
      cases cs with
      | nil => simp [charsLt] at h2
      | cons c cs =>
        simp only [charsLt] at h1 h2 ⊢
        by_cases hab : a < b <;> by_cases hbc : b < c
        · simp [lt_trans hab hbc, asymm (lt_trans hab hbc)]
        · by_cases hcb : c < b
          · simp [hcb] at h2
            exact absurd h2 hbc
          · have : b = c := le_antisymm (not_lt.mp hcb) (not_lt.mp hbc)
            subst this
            simp [hab, asymm hab]
        · by_cases hba : b < a
          · simp [hab, hba] at h1
          · have : a = b := le_antisymm (not_lt.mp hba) (not_lt.mp hab)
            subst this
            simp [hbc, asymm hbc]
        · by_cases hba : b < a
          · simp [hab, hba] at h1
          · by_cases hcb : c < b
            · simp [hbc, hcb] at h2
            · have hab2 : a = b := le_antisymm (not_lt.mp hba) (not_lt.mp hab)
              have hbc2 : b = c := le_antisymm (not_lt.mp hcb) (not_lt.mp hbc)
              subst hab2; subst hbc2
              simp only [hab, if_false, lt_irrefl] at h1 h2 ⊢
              exact ih bs cs h1 h2
lemma strLe_total (a b : String) : strLe a b = true ∨ strLe b a = true := by
  unfold strLe
  by_cases h : charsLt b.data a.data = true
  · right
    simp [charsLt_asymm _ _ h]
  · left
    simp [Bool.not_eq_true] at h
    simp [h]
lemma strLe_trans (a b c : String) (h1 : strLe a b = true) (h2 : strLe b c = true) :
    strLe a c = true := by
  unfold strLe at *
  simp only [Bool.not_eq_true'] at h1 h2 ⊢
  by_contra hc
  simp only [Bool.not_eq_false] at hc
  by_cases hcb : charsLt c.data b.data = true
  · rw [h2] at hcb
    exact Bool.false_ne_true hcb
  · simp only [Bool.not_eq_true] at hcb
    by_cases hbc : charsLt b.data c.data = true
    · have := charsLt_trans _ _ _ hbc hc
      rw [h1] at this
      exact Bool.false_ne_true this
    · simp only [Bool.not_eq_true] at hbc
      have : c.data = b.data := eq_of_charsLt_false _ _ hcb hbc
      rw [this] at hc
      rw [h1] at hc
      exact Bool.false_ne_true hc
lemma strLe_antisymm (a b : String) (h1 : strLe a b = true) (h2 : strLe b a = true) :
    a = b := by
  unfold strLe at h1 h2
  simp only [Bool.not_eq_true'] at h1 h2
  exact String.ext (eq_of_charsLt_false _ _ h2 h1)
-- infra block 2: insertion sort facts
lemma insertLe_perm (x : String) (l : List String) : List.Perm (insertLe x l) (x :: l) := by
  induction l with
  | nil => simp [insertLe]
  | cons y ys ih =>
    simp only [insertLe]
    by_cases h : strLe x y = true
    · simp [h]
    · simp only [h, if_false]
      exact List.Perm.trans (ih.cons y) (List.Perm.swap x y ys)
lemma sortStrings_perm (l : List String) : List.Perm (sortStrings l) l := by
  induction l with
  | nil => simp [sortStrings]
  | cons x xs ih =>
    simp only [sortStrings, List.foldr_cons]
    exact List.Perm.trans (insertLe_perm x (List.foldr insertLe [] xs)) (ih.cons x)
lemma mem_sortStrings {a : String} {l : List String} : a ∈ sortStrings l ↔ a ∈ l :=
  (sortStrings_perm l).mem_iff
lemma insertLe_sorted (x : String) (l : List String) (h : StrSorted l) :
    StrSorted (insertLe x l) := by
  induction l with
  | nil => simp [insertLe, StrSorted]
  | cons y ys ih =>
    unfold StrSorted at h
    rcases List.pairwise_cons.mp h with ⟨hy, hys⟩
    unfold StrSorted
    simp only [insertLe]
    by_cases hxy : strLe x y = true
    · simp only [hxy, if_true]
      refine List.pairwise_cons.mpr ⟨?_, h⟩
      intro b hb
      rcases List.mem_cons.mp hb with rfl | hb
      · exact hxy
      · exact strLe_trans _ _ _ hxy (hy b hb)
    · have hyx : strLe y x = true := by
        rcases strLe_total x y with ht | ht
        · exact absurd ht hxy
        · exact ht
      simp only [hxy, if_false]
      refine List.pairwise_cons.mpr ⟨?_, ih hys⟩
      intro b hb
      have hb2 : b ∈ x :: ys := (insertLe_perm x ys).mem_iff.mp hb
      rcases List.mem_cons.mp hb2 with rfl | hb2
      · exact hyx
      · exact hy b hb2
lemma sortStrings_sorted (l : List String) : StrSorted (sortStrings l) := by
  induction l with
  | nil => simp [sortStrings, StrSorted]
  | cons x xs ih => exact insertLe_sorted x _ ih
lemma sortStrings_eq_of_perm {l1 l2 : List String} (h : List.Perm l1 l2) :
    sortStrings l1 = sortStrings l2 := by
  have hp : List.Perm (sortStrings l1) (sortStrings l2) :=
    ((sortStrings_perm l1).trans h).trans (sortStrings_perm l2).symm
  have : IsAntisymm String (fun a b => strLe a b = true) :=
    ⟨fun a b h1 h2 => strLe_antisymm a b h1 h2⟩
  exact List.eq_of_perm_of_sorted hp (sortStrings_sorted l1) (sortStrings_sorted l2)
lemma sortStrings_nodup {l : List String} (h : l.Nodup) : (sortStrings l).Nodup :=
  ((sortStrings_perm l).nodup_iff).mpr h
-- infra block 3: association list lookups
section Lookup
variable {α β γ : Type} [DecidableEq α]

lemma lookup_mem {l : List (α × β)} {k : α} {v : β}
    (h : l.lookup k = some v) : (k, v) ∈ l := by
  induction l with
  | nil => simp at h
  | cons p l ih =>
    obtain ⟨a, b⟩ := p
    by_cases hk : k = a
    · subst hk
      simp only [List.lookup_cons, beq_self_eq_true] at h
      obtain rfl := Option.some_inj.mp h
      exact List.mem_cons_self _ _
    · simp only [List.lookup_cons, beq_false_of_ne hk] at h
      right
      exact ih h

lemma lookup_eq_none_iff {l : List (α × β)} {k : α} :
    l.lookup k = none ↔ k ∉ l.map Prod.fst := by
  induction l with
  | nil => simp
  | cons p l ih =>
    obtain ⟨a, b⟩ := p
    by_cases hk : k = a
    · subst hk
      simp [List.lookup_cons]
    · simp only [List.lookup_cons, beq_false_of_ne hk, List.map_cons, List.mem_cons]
      rw [ih]
      constructor
      · intro h hmem
        rcases hmem with h2 | h2
        · exact hk h2
        · exact h h2
      · intro h hmem
        exact h (Or.inr hmem)

lemma lookup_of_mem_nodup {l : List (α × β)} {k : α} {v : β}
    (nd : (l.map Prod.fst).Nodup) (h : (k, v) ∈ l) : l.lookup k = some v := by
  induction l with
  | nil => simp at h
  | cons p l ih =>
    obtain ⟨a, b⟩ := p
    rw [List.map_cons, List.nodup_cons] at nd
    rcases List.mem_cons.mp h with heq | hmem
    · rw [Prod.ext_iff] at heq
      obtain ⟨h1, h2⟩ := heq
      subst h1; subst h2
      simp [List.lookup_cons]
    · by_cases hk : k = a
      · exfalso
        apply nd.1
        rw [← hk]
        exact List.mem_map.mpr ⟨(k, v), hmem, rfl⟩
      · simp only [List.lookup_cons, beq_false_of_ne hk]
        exact ih nd.2 hmem

lemma perm_lookup_eq {l1 l2 : List (α × β)} (h : List.Perm l1 l2)
    (nd : (l1.map Prod.fst).Nodup) (k : α) : l1.lookup k = l2.lookup k := by
  have nd2 : (l2.map Prod.fst).Nodup := ((h.map Prod.fst).nodup_iff).mp nd
  cases h1 : l1.lookup k with
  | none =>
    cases h2 : l2.lookup k with
    | none => rfl
    | some v =>
      exfalso
      have hm : (k, v) ∈ l1 := h.symm.subset (lookup_mem h2)
      rw [lookup_of_mem_nodup nd hm] at h1
      exact Option.noConfusion h1
  | some v =>
    have hm : (k, v) ∈ l2 := h.subset (lookup_mem h1)
    rw [lookup_of_mem_nodup nd2 hm]

lemma lookup_map_value (f : β → γ) (l : List (α × β)) (k : α) :
    (l.map (fun p => (p.1, f p.2))).lookup k = (l.lookup k).map f := by
  induction l with
  | nil => simp
  | cons p l ih =>
    obtain ⟨a, b⟩ := p
    by_cases hk : k = a
    · subst hk
      simp [List.lookup_cons]
    · simp only [List.map_cons, List.lookup_cons, beq_false_of_ne hk]
      exact ih

lemma filter_key_eq_lookup_toList {l : List (α × β)} {k : α}
    (nd : (l.map Prod.fst).Nodup) :
    (l.filter (fun p => p.1 = k)).map Prod.snd = (l.lookup k).toList := by
  induction l with
  | nil => simp
  | cons p l ih =>
    obtain ⟨a, b⟩ := p
    rw [List.map_cons, List.nodup_cons] at nd
    by_cases hk : a = k
    · subst hk
      simp only [List.lookup_cons, beq_self_eq_true, List.filter_cons]
      have hnone : l.lookup a = none := by
        rw [lookup_eq_none_iff]
        exact nd.1
      have hfil : l.filter (fun p => decide (p.1 = a)) = [] := by
        rw [List.filter_eq_nil_iff]
        intro q hq hdec
        apply nd.1
        have : q.1 = a := of_decide_eq_true hdec
        rw [← this]
        exact List.mem_map.mpr ⟨q, hq, rfl⟩
      simp [hfil]
    · have hb : (k == a) = false := beq_false_of_ne (fun h2 => hk h2.symm)
      have hd : (decide (a = k)) = false := decide_eq_false hk
      simp only [List.lookup_cons, hb, List.filter_cons, hd, Bool.false_eq_true, if_false]
      exact ih nd.2

end Lookup
-- infra block 4: grouping key structure
lemma string_empty_append (s : String) : "" ++ s = s := by
  apply String.ext
  rw [String.data_append]
  show [] ++ s.data = s.data
  simp

lemma foldl_key_shift (ps : List (String × String)) (s : String) :
    ps.foldl (fun t p => t ++ segString p) s = s ++ encodePairs ps := by
  induction ps generalizing s with
  | nil =>
    show s = s ++ ""
    apply String.ext
    rw [String.data_append]
    show s.data = s.data ++ []
    simp
  | cons p ps ih =>
    show List.foldl _ (s ++ segString p) ps = s ++ encodePairs (p :: ps)
    have h2 : encodePairs (p :: ps) = segString p ++ encodePairs ps := by
      show List.foldl _ ("" ++ segString p) ps = _
      rw [ih ("" ++ segString p), string_empty_append]
    rw [ih (s ++ segString p), h2, String.append_assoc]

lemma encodePairs_cons (p : String × String) (ps : List (String × String)) :
    encodePairs (p :: ps) = segString p ++ encodePairs ps := by
  show List.foldl _ ("" ++ segString p) ps = _
  rw [foldl_key_shift, string_empty_append]

lemma buildConfigKey_decomp (r : EvalResult) :
    buildConfigKey r = r.model ++ encodePairs (keyPairs r) := by
  unfold buildConfigKey keyPairs
  have hfold : ∀ (names : List String) (s : String),
      names.foldl (fun key n => key ++ "|" ++ n ++ "=" ++ keyFieldValue r n) s =
      names.foldl (fun t n => t ++ segString (n, keyFieldValue r n)) s := by
    intro names
    induction names with
    | nil => intro s; rfl
    | cons n ns ih =>
      intro s
      simp only [List.foldl_cons]
      rw [ih]
      congr 1
      simp [segString, String.append_assoc]
  rw [hfold, ← List.foldl_map (fun n => (n, keyFieldValue r n))
    (fun t p => t ++ segString p), foldl_key_shift]

lemma foldl_key_value_congr (names : List String) (s : String) (f g : String → String)
    (h : ∀ n ∈ names, f n = g n) :
    names.foldl (fun key n => key ++ "|" ++ n ++ "=" ++ f n) s =
    names.foldl (fun key n => key ++ "|" ++ n ++ "=" ++ g n) s := by
  induction names generalizing s with
  | nil => rfl
  | cons n ns ih =>
    simp only [List.foldl_cons]
    rw [h n (List.mem_cons_self n ns)]
    exact ih _ (fun m hm => h m (List.mem_cons_of_mem n hm))
-- infra block 5: injectivity of the key encoding on delimiter-free parts
lemma takeWhile_append_of_all {α : Type} (p : α → Bool) (xs ys : List α)
    (h : ∀ x ∈ xs, p x = true) :
    (xs ++ ys).takeWhile p = xs ++ ys.takeWhile p := by
  induction xs with
  | nil => simp
  | cons x xs ih =>
    have hx : p x = true := h x (List.mem_cons_self x xs)
    simp only [List.cons_append, List.takeWhile_cons, hx, if_true]
    rw [ih (fun y hy => h y (List.mem_cons_of_mem x hy))]

lemma takeWhile_ne_pipe_encodeChars (ps : List (List Char × List Char)) :
    (encodeChars ps).takeWhile (fun c => c ≠ '|') = [] := by
  cases ps with
  | nil => simp [encodeChars]
  | cons p ps => simp [encodeChars, segChars]

lemma takeWhile_prefix_delim (n rest : List Char) (d : Char) (hd : d ∉ n) :
    (n ++ d :: rest).takeWhile (fun c => c ≠ d) = n := by
  rw [takeWhile_append_of_all _ n _ (by
    intro x hx
    have : x ≠ d := by
      intro he
      exact hd (he ▸ hx)
    simp [this])]
  simp

lemma encodeChars_inj : ∀ (ps1 ps2 : List (List Char × List Char)),
    (∀ p ∈ ps1, '|' ∉ p.1 ∧ '=' ∉ p.1 ∧ '|' ∉ p.2) →
    (∀ p ∈ ps2, '|' ∉ p.1 ∧ '=' ∉ p.1 ∧ '|' ∉ p.2) →
    encodeChars ps1 = encodeChars ps2 → ps1 = ps2 := by
  intro ps1
  induction ps1 with
  | nil =>
    intro ps2 _ _ h
    cases ps2 with
    | nil => rfl
    | cons p t => simp [encodeChars, segChars] at h
  | cons p1 t1 ih =>
    intro ps2 hg1 hg2 h
    cases ps2 with
    | nil => simp [encodeChars, segChars] at h
    | cons p2 t2 =>
      obtain ⟨n1, v1⟩ := p1
      obtain ⟨n2, v2⟩ := p2
      have g1 := hg1 (n1, v1) (List.mem_cons_self _ _)
      have g2 := hg2 (n2, v2) (List.mem_cons_self _ _)
      simp only [encodeChars, List.flatMap_cons, segChars, List.cons_append,
        List.append_assoc, List.cons.injEq, true_and] at h
      -- h : n1 ++ '=' :: (v1 ++ encodeChars t1) = n2 ++ '=' :: (v2 ++ encodeChars t2)
      have hn : n1 = n2 := by
        have e1 := takeWhile_prefix_delim n1 (v1 ++ encodeChars t1) '=' g1.2.1
        have e2 := takeWhile_prefix_delim n2 (v2 ++ encodeChars t2) '=' g2.2.1
        simp only [encodeChars] at e1 e2
        rw [h] at e1
        rw [e2] at e1
        exact e1.symm
      subst hn
      have h3 : v1 ++ encodeChars t1 = v2 ++ encodeChars t2 := by
        have := List.append_cancel_left h
        exact List.cons_injective.eq_iff.mp this
      simp only [encodeChars] at h3
      have hv : v1 = v2 := by
        have e1 : (v1 ++ encodeChars t1).takeWhile (fun c => c ≠ '|') = v1 := by
          rw [takeWhile_append_of_all _ v1 _ (by
            intro x hx
            have : x ≠ '|' := by
              intro he
              exact g1.2.2 (he ▸ hx)
            simp [this])]
          rw [takeWhile_ne_pipe_encodeChars]
          simp
        have e2 : (v2 ++ encodeChars t2).takeWhile (fun c => c ≠ '|') = v2 := by
          rw [takeWhile_append_of_all _ v2 _ (by
            intro x hx
            have : x ≠ '|' := by
              intro he
              exact g2.2.2 (he ▸ hx)
            simp [this])]
          rw [takeWhile_ne_pipe_encodeChars]
          simp
        simp only [encodeChars] at e1 e2
        rw [h3] at e1
        rw [e2] at e1
        exact e1.symm
      subst hv
      have h4 : encodeChars t1 = encodeChars t2 := List.append_cancel_left h3
      have ht : t1 = t2 := ih t2
        (fun p hp => hg1 p (List.mem_cons_of_mem _ hp))
        (fun p hp => hg2 p (List.mem_cons_of_mem _ hp)) h4
      rw [ht]
-- infra block 6: key injectivity at the string level
lemma segString_data (p : String × String) :
    (segString p).data = '|' :: p.1.data ++ '=' :: p.2.data := by
  show (("|" ++ p.1 ++ "=") ++ p.2).data = _
  rw [String.data_append, String.data_append, String.data_append]
  show (['|'] ++ p.1.data ++ ['=']) ++ p.2.data = _
  simp

lemma encodePairs_data (ps : List (String × String)) :
    (encodePairs ps).data = encodeChars (ps.map (fun p => (p.1.data, p.2.data))) := by
  induction ps with
  | nil => rfl
  | cons p ps ih =>
    rw [encodePairs_cons, String.data_append, ih]
    simp only [List.map_cons, encodeChars, List.flatMap_cons]
    rw [segString_data]
    rfl

lemma dataPair_injective :
    Function.Injective (fun p : String × String => (p.1.data, p.2.data)) := by
  intro p q h
  rw [Prod.ext_iff] at h ⊢
  exact ⟨String.ext h.1, String.ext h.2⟩

lemma buildConfigKey_eq_iff_keyPairs (r1 r2 : EvalResult)
    (hm : r1.model = r2.model)
    (hg1 : ∀ p ∈ keyPairs r1, GoodPair p) (hg2 : ∀ p ∈ keyPairs r2, GoodPair p) :
    buildConfigKey r1 = buildConfigKey r2 ↔ keyPairs r1 = keyPairs r2 := by
  constructor
  · intro h
    rw [buildConfigKey_decomp, buildConfigKey_decomp, hm] at h
    have hdata := congrArg String.data h
    rw [String.data_append, String.data_append, List.append_cancel_left_eq] at hdata
    rw [encodePairs_data, encodePairs_data] at hdata
    have hmap := encodeChars_inj _ _
      (by
        intro p hp
        obtain ⟨q, hq, rfl⟩ := List.mem_map.mp hp
        exact hg1 q hq)
      (by
        intro p hp
        obtain ⟨q, hq, rfl⟩ := List.mem_map.mp hp
        exact hg2 q hq)
      hdata
    exact (List.map_injective_iff.mpr dataPair_injective) hmap
  · intro h
    rw [buildConfigKey_decomp, buildConfigKey_decomp, hm, h]
-- infra block 7: components of the aggregation pass
lemma foldl_scs_configScores (key : String) (l : List (String × ℚ)) (a : StatsAcc) :
    (l.foldl (stepCustomScore key) a).configScores = a.configScores := by
  induction l generalizing a with
  | nil => rfl
  | cons p l ih => rw [List.foldl_cons, ih]; rfl
lemma foldl_scs_configList (key : String) (l : List (String × ℚ)) (a : StatsAcc) :
    (l.foldl (stepCustomScore key) a).configList = a.configList := by
  induction l generalizing a with
  | nil => rfl
  | cons p l ih => rw [List.foldl_cons, ih]; rfl
lemma foldl_scs_totalScore (key : String) (l : List (String × ℚ)) (a : StatsAcc) :
    (l.foldl (stepCustomScore key) a).totalScore = a.totalScore := by
  induction l generalizing a with
  | nil => rfl
  | cons p l ih => rw [List.foldl_cons, ih]; rfl
lemma foldl_scs_configCustomScores (key : String) (l : List (String × ℚ)) (a : StatsAcc)
    (k st : String) :
    (l.foldl (stepCustomScore key) a).configCustomScores k st =
      a.configCustomScores k st ++
        (if k = key then (l.filter (fun p => p.1 = st)).map Prod.snd else []) := by
  induction l generalizing a with
  | nil => simp
  | cons p l ih =>
    rw [List.foldl_cons, ih]
    by_cases hk : k = key
    · subst hk
      simp only [if_true, eq_self_iff_true, List.filter_cons]
      by_cases hst : p.1 = st
      · have hd : decide (p.1 = st) = true := decide_eq_true hst
        simp only [hd, if_true, List.map_cons]
        show (stepCustomScore k a p).configCustomScores k st ++ _ = _
        simp only [stepCustomScore]
        simp [hst.symm]
      · have hd : decide (p.1 = st) = false := decide_eq_false hst
        simp only [hd, Bool.false_eq_true, if_false]
        show (stepCustomScore k a p).configCustomScores k st ++ _ = _
        simp only [stepCustomScore]
        have hst2 : ¬ st = p.1 := fun h => hst h.symm
        simp [hst2]
    · simp only [if_neg hk, List.append_nil] at *
      show (stepCustomScore key a p).configCustomScores k st = _
      simp only [stepCustomScore]
      have hc : ¬(k = key ∧ st = p.1) := fun hc2 => hk hc2.1
      simp only [if_neg hc]
lemma foldl_scf_configScores (key : String) (l : List (String × RawField)) (a : StatsAcc) :
    (l.foldl (stepCustomField key) a).configScores = a.configScores := by
  induction l generalizing a with
  | nil => rfl
  | cons p l ih => rw [List.foldl_cons, ih]; rfl
lemma foldl_scf_configList (key : String) (l : List (String × RawField)) (a : StatsAcc) :
    (l.foldl (stepCustomField key) a).configList = a.configList := by
  induction l generalizing a with
  | nil => rfl
  | cons p l ih => rw [List.foldl_cons, ih]; rfl
lemma foldl_scf_totalScore (key : String) (l : List (String × RawField)) (a : StatsAcc) :
    (l.foldl (stepCustomField key) a).totalScore = a.totalScore := by
  induction l generalizing a with
  | nil => rfl
  | cons p l ih => rw [List.foldl_cons, ih]; rfl
lemma foldl_scf_configCustomScores (key : String) (l : List (String × RawField))
    (a : StatsAcc) :
    (l.foldl (stepCustomField key) a).configCustomScores = a.configCustomScores := by
  induction l generalizing a with
  | nil => rfl
  | cons p l ih => rw [List.foldl_cons, ih]; rfl
lemma recordStep_totalScore (acc : StatsAcc) (r : EvalResult) :
    (recordStep acc r).totalScore = acc.totalScore + r.scores.combined := by
  unfold recordStep
  rw [foldl_scf_totalScore, foldl_scs_totalScore]
lemma recordStep_configList (acc : StatsAcc) (r : EvalResult) :
    (recordStep acc r).configList = addName acc.configList (buildConfigKey r) := by
  unfold recordStep
  rw [foldl_scf_configList, foldl_scs_configList]
lemma recordStep_configScores (acc : StatsAcc) (r : EvalResult) (k : String) :
    (recordStep acc r).configScores k =
      if k = buildConfigKey r then acc.configScores k ++ [r.scores.combined]
      else acc.configScores k := by
  unfold recordStep
  rw [foldl_scf_configScores, foldl_scs_configScores]
lemma recordStep_configCustomScores (acc : StatsAcc) (r : EvalResult) (k st : String) :
    (recordStep acc r).configCustomScores k st =
      acc.configCustomScores k st ++
        (if k = buildConfigKey r then
          (r.scores.custom.filter (fun p => p.1 = st)).map Prod.snd
        else []) := by
  unfold recordStep
  rw [foldl_scf_configCustomScores, foldl_scs_configCustomScores]
-- infra block 8: the full pass over the record list
lemma foldl_recordStep_totalScore (results : List EvalResult) (acc : StatsAcc) :
    (results.foldl recordStep acc).totalScore =
      acc.totalScore + (results.map (fun r => r.scores.combined)).sum := by
  induction results generalizing acc with
  | nil => simp
  | cons r rs ih =>
    rw [List.foldl_cons, ih, recordStep_totalScore]
    simp [add_assoc]

lemma foldl_recordStep_configScores (results : List EvalResult) (acc : StatsAcc)
    (k : String) :
    (results.foldl recordStep acc).configScores k =
      acc.configScores k ++
        (results.filter (fun r => buildConfigKey r = k)).map (fun r => r.scores.combined) := by
  induction results generalizing acc with
  | nil => simp
  | cons r rs ih =>
    rw [List.foldl_cons, ih, recordStep_configScores, List.filter_cons]
    by_cases hk : buildConfigKey r = k
    · rw [if_pos hk.symm]
      simp [hk]
    · rw [if_neg (fun h => hk h.symm)]
      simp [hk]

lemma foldl_recordStep_configCustomScores (results : List EvalResult) (acc : StatsAcc)
    (k st : String) :
    (results.foldl recordStep acc).configCustomScores k st =
      acc.configCustomScores k st ++
        (results.filter (fun r => buildConfigKey r = k)).flatMap
          (fun r => (r.scores.custom.filter (fun p => p.1 = st)).map Prod.snd) := by
  induction results generalizing acc with
  | nil => simp
  | cons r rs ih =>
    rw [List.foldl_cons, ih, recordStep_configCustomScores, List.filter_cons]
    by_cases hk : buildConfigKey r = k
    · rw [if_pos hk.symm]
      simp [hk]
    · rw [if_neg (fun h => hk h.symm)]
      simp [hk]

lemma foldl_recordStep_configList (results : List EvalResult) (acc : StatsAcc) :
    (results.foldl recordStep acc).configList =
      results.foldl (fun l r => addName l (buildConfigKey r)) acc.configList := by
  induction results generalizing acc with
  | nil => rfl
  | cons r rs ih => rw [List.foldl_cons, ih, recordStep_configList, List.foldl_cons]

lemma addName_nodup {l : List String} (h : l.Nodup) (n : String) : (addName l n).Nodup := by
  unfold addName
  by_cases hm : n ∈ l
  · simp [hm, h]
  · simp only [hm, if_false]
    rw [List.nodup_append]
    exact ⟨h, List.nodup_singleton n, by simp [hm]⟩

lemma mem_addName {l : List String} {n k : String} :
    k ∈ addName l n ↔ k ∈ l ∨ k = n := by
  unfold addName
  by_cases hm : n ∈ l
  · simp only [hm, if_true]
    constructor
    · exact Or.inl
    · intro h
      rcases h with h | rfl
      · exact h
      · exact hm
  · simp [hm]

lemma foldl_addName_nodup (results : List EvalResult) {l : List String} (h : l.Nodup) :
    (results.foldl (fun l r => addName l (buildConfigKey r)) l).Nodup := by
  induction results generalizing l with
  | nil => exact h
  | cons r rs ih => exact ih (addName_nodup h _)

lemma mem_foldl_addName (results : List EvalResult) (l : List String) (k : String) :
    k ∈ results.foldl (fun l r => addName l (buildConfigKey r)) l ↔
      k ∈ l ∨ ∃ r ∈ results, buildConfigKey r = k := by
  induction results generalizing l with
  | nil => simp
  | cons r rs ih =>
    rw [List.foldl_cons, ih, mem_addName]
    constructor
    · intro h
      rcases h with (h | h) | h
      · exact Or.inl h
      · exact Or.inr ⟨r, List.mem_cons_self _ _, h.symm⟩
      · obtain ⟨q, hq, hqk⟩ := h
        exact Or.inr ⟨q, List.mem_cons_of_mem _ hq, hqk⟩
    · intro h
      rcases h with h | ⟨q, hq, hqk⟩
      · exact Or.inl (Or.inl h)
      · rcases List.mem_cons.mp hq with rfl | hq2
        · exact Or.inl (Or.inr hqk.symm)
        · exact Or.inr ⟨q, hq2, hqk⟩

lemma foldl_add_eq (l : List ℚ) (a : ℚ) : l.foldl (fun x y => x + y) a = a + l.sum := by
  induction l generalizing a with
  | nil => simp
  | cons x xs ih => simp [ih, add_assoc]

lemma foldlMin_le (l : List ℚ) (s0 : ℚ) :
    (l.foldl (fun m s => if s < m then s else m) s0) ≤ s0 ∧
      ∀ s ∈ l, (l.foldl (fun m s => if s < m then s else m) s0) ≤ s := by
  induction l generalizing s0 with
  | nil => simp
  | cons x xs ih =>
    rw [List.foldl_cons]
    obtain ⟨h1, h2⟩ := ih (if x < s0 then x else s0)
    have hle0 : (if x < s0 then x else s0) ≤ s0 := by
      by_cases hx : x < s0
      · rw [if_pos hx]; exact le_of_lt hx
      · rw [if_neg hx]
    have hlex : (if x < s0 then x else s0) ≤ x := by
      by_cases hx : x < s0
      · rw [if_pos hx]
      · rw [if_neg hx]; exact le_of_not_lt hx
    refine ⟨le_trans h1 hle0, ?_⟩
    intro s hs
    rcases List.mem_cons.mp hs with rfl | hs2
    · exact le_trans h1 hlex
    · exact h2 s hs2

lemma foldlMin_mem (l : List ℚ) (s0 : ℚ) :
    (l.foldl (fun m s => if s < m then s else m) s0) = s0 ∨
      (l.foldl (fun m s => if s < m then s else m) s0) ∈ l := by
  induction l generalizing s0 with
  | nil => simp
  | cons x xs ih =>
    rw [List.foldl_cons]
    rcases ih (if x < s0 then x else s0) with h | h
    · by_cases hx : x < s0
      · right
        rw [if_pos hx] at h ⊢
        rw [h]
        exact List.mem_cons_self x xs
      · left
        rw [if_neg hx] at h ⊢
        exact h
    · exact Or.inr (List.mem_cons_of_mem x h)

lemma foldlMax_ge (l : List ℚ) (s0 : ℚ) :
    s0 ≤ (l.foldl (fun m s => if m < s then s else m) s0) ∧
      ∀ s ∈ l, s ≤ (l.foldl (fun m s => if m < s then s else m) s0) := by
  induction l generalizing s0 with
  | nil => simp
  | cons x xs ih =>
    rw [List.foldl_cons]
    obtain ⟨h1, h2⟩ := ih (if s0 < x then x else s0)
    have hge0 : s0 ≤ (if s0 < x then x else s0) := by
      by_cases hx : s0 < x
      · rw [if_pos hx]; exact le_of_lt hx
      · rw [if_neg hx]
    have hgex : x ≤ (if s0 < x then x else s0) := by
      by_cases hx : s0 < x
      · rw [if_pos hx]
      · rw [if_neg hx]; exact le_of_not_lt hx
    refine ⟨le_trans hge0 h1, ?_⟩
    intro s hs
    rcases List.mem_cons.mp hs with rfl | hs2
    · exact le_trans hgex h1
    · exact h2 s hs2

lemma foldlMax_mem (l : List ℚ) (s0 : ℚ) :
    (l.foldl (fun m s => if m < s then s else m) s0) = s0 ∨
      (l.foldl (fun m s => if m < s then s else m) s0) ∈ l := by
  induction l generalizing s0 with
  | nil => simp
  | cons x xs ih =>
    rw [List.foldl_cons]
    rcases ih (if s0 < x then x else s0) with h | h
    · by_cases hx : s0 < x
      · right
        rw [if_pos hx] at h ⊢
        rw [h]
        exact List.mem_cons_self x xs
      · left
        rw [if_neg hx] at h ⊢
        exact h
    · exact Or.inr (List.mem_cons_of_mem x h)

lemma le_div_length_of_all_le (l : List ℚ) (hne : l ≠ []) (m : ℚ)
    (h : ∀ s ∈ l, m ≤ s) : m ≤ l.sum / (l.length : ℚ) := by
  have hpos : (0 : ℚ) < l.length := by
    have : 0 < l.length := List.length_pos.mpr hne
    exact_mod_cast this
  rw [le_div_iff₀ hpos]
  have := List.card_nsmul_le_sum l m h
  rw [nsmul_eq_mul] at this
  linarith [this]

lemma div_length_le_of_all_le (l : List ℚ) (hne : l ≠ []) (m : ℚ)
    (h : ∀ s ∈ l, s ≤ m) : l.sum / (l.length : ℚ) ≤ m := by
  have hpos : (0 : ℚ) < l.length := by
    have : 0 < l.length := List.length_pos.mpr hne
    exact_mod_cast this
  rw [div_le_iff₀ hpos]
  have := List.sum_le_card_nsmul l m h
  rw [nsmul_eq_mul] at this
  linarith [this]
-- infra block 9: published statistics of the aggregation result
lemma totalTests_eq (results : List EvalResult) :
    (CalculateStats results).totalTests = results.length := by
  unfold CalculateStats
  by_cases h : results.isEmpty
  · simp [h]
  · simp [h]

lemma results_eq (results : List EvalResult) :
    (CalculateStats results).results = results := by
  unfold CalculateStats
  by_cases h : results.isEmpty
  · simp [h]
  · simp [h]

lemma models_empty : (CalculateStats []).models = [] := by
  unfold CalculateStats
  simp

lemma models_eq (results : List EvalResult) (hne : ¬ results.isEmpty) :
    (CalculateStats results).models =
      sortStrings ((results.foldl recordStep initAcc).configList) := by
  unfold CalculateStats
  simp [hne]

lemma mem_models_iff (results : List EvalResult) (k : String) :
    k ∈ (CalculateStats results).models ↔ ∃ r ∈ results, buildConfigKey r = k := by
  by_cases h : results.isEmpty
  · rw [List.isEmpty_iff] at h
    subst h
    rw [models_empty]
    simp
  · rw [models_eq results h, mem_sortStrings, foldl_recordStep_configList]
    show _ ∈ List.foldl _ initAcc.configList _ ↔ _
    rw [mem_foldl_addName]
    simp [initAcc]

lemma models_nodup (results : List EvalResult) :
    (CalculateStats results).models.Nodup := by
  by_cases h : results.isEmpty
  · rw [List.isEmpty_iff] at h
    subst h
    rw [models_empty]
    exact List.nodup_nil
  · rw [models_eq results h]
    apply sortStrings_nodup
    rw [foldl_recordStep_configList]
    exact foldl_addName_nodup results List.nodup_nil

lemma acc_configScores (results : List EvalResult) (k : String) :
    (results.foldl recordStep initAcc).configScores k = groupScores results k := by
  rw [foldl_recordStep_configScores]
  show [] ++ _ = _
  rw [List.nil_append]
  rfl

lemma modelStats_eq_finalize (results : List EvalResult) (k : String)
    (hk : k ∈ (CalculateStats results).models) :
    (CalculateStats results).modelStats k =
      finalizeStat (results.foldl recordStep initAcc) k := by
  have hne : ¬ results.isEmpty := by
    intro h
    rw [List.isEmpty_iff] at h
    subst h
    rw [models_empty] at hk
    exact List.not_mem_nil k hk
  have hmem : k ∈ sortStrings ((results.foldl recordStep initAcc).configList) := by
    rw [← models_eq results hne]
    exact hk
  unfold CalculateStats
  simp only [hne, Bool.false_eq_true, if_false]
  simp [hmem]

lemma modelStats_none_of_not_mem (results : List EvalResult) (k : String)
    (hk : k ∉ (CalculateStats results).models) :
    (CalculateStats results).modelStats k = none := by
  by_cases hne : results.isEmpty
  · unfold CalculateStats
    simp [hne]
  · have hmem : k ∉ sortStrings ((results.foldl recordStep initAcc).configList) := by
      rw [← models_eq results hne]
      exact hk
    unfold CalculateStats
    simp only [hne, Bool.false_eq_true, if_false]
    simp [hmem]

lemma groupScores_ne_nil (results : List EvalResult) (k : String)
    (hk : k ∈ (CalculateStats results).models) : groupScores results k ≠ [] := by
  obtain ⟨r, hr, hrk⟩ := (mem_models_iff results k).mp hk
  unfold groupScores
  intro h
  rw [List.map_eq_nil_iff, List.filter_eq_nil_iff] at h
  exact h r hr (by simp [hrk])

lemma avgScore_eq (results : List EvalResult) (hne : ¬ results.isEmpty) :
    (CalculateStats results).avgScore =
      (results.map (fun r => r.scores.combined)).sum / (results.length : ℚ) := by
  unfold CalculateStats
  simp only [hne, Bool.false_eq_true, if_false]
  have := foldl_recordStep_totalScore results initAcc
  show (results.foldl recordStep initAcc).totalScore / _ = _
  rw [this]
  show ((0 : ℚ) + _) / _ = _
  rw [zero_add]

lemma flatMap_toList_eq_filterMap {α β : Type} (f : α → Option β) (l : List α) :
    l.flatMap (fun x => (f x).toList) = l.filterMap f := by
  induction l with
  | nil => simp
  | cons x xs ih =>
    cases hx : f x with
    | none => simp [List.filterMap_cons, hx, ih]
    | some v => simp [List.filterMap_cons, hx, ih]

lemma flatMap_congr_mem {α β : Type} (l : List α) (f g : α → List β)
    (h : ∀ x ∈ l, f x = g x) : l.flatMap f = l.flatMap g := by
  induction l with
  | nil => rfl
  | cons x xs ih =>
    rw [List.flatMap_cons, List.flatMap_cons, h x (List.mem_cons_self x xs),
      ih (fun y hy => h y (List.mem_cons_of_mem x hy))]

lemma acc_configCustomScores (results : List EvalResult) (k st : String)
    (hnd : ∀ r ∈ results, (r.scores.custom.map Prod.fst).Nodup) :
    (results.foldl recordStep initAcc).configCustomScores k st =
      groupCustomScores results k st := by
  rw [foldl_recordStep_configCustomScores]
  show [] ++ _ = _
  rw [List.nil_append]
  unfold groupCustomScores
  rw [← flatMap_toList_eq_filterMap]
  apply flatMap_congr_mem
  intro r hr
  exact filter_key_eq_lookup_toList (hnd r (List.mem_of_mem_filter hr))
-- helper: peeling one bind of a successful Except computation
lemma except_bind_ok {α β : Type} {e : Except Unit α} {f : α → Except Unit β} {b : β}
    (h : (e >>= f) = .ok b) : ∃ a, e = .ok a ∧ f a = .ok b := by
  cases e with
  | error err => simp [Bind.bind, Except.bind] at h
  | ok a =>
    refine ⟨a, rfl, ?_⟩
    simpa [Bind.bind, Except.bind] using h

lemma decodeRecord_scores {fs : RawObj} {r : EvalResult}
    (h : decodeRecord fs = .ok r) :
    decodeScores (fs.lookup "scores") = .ok r.scores := by
  unfold decodeRecord at h
  obtain ⟨x1, h1, h⟩ := except_bind_ok h
  obtain ⟨x2, h2, h⟩ := except_bind_ok h
  obtain ⟨x3, h3, h⟩ := except_bind_ok h
  obtain ⟨x4, h4, h⟩ := except_bind_ok h
  obtain ⟨x5, h5, h⟩ := except_bind_ok h
  obtain ⟨x6, h6, h⟩ := except_bind_ok h
  obtain ⟨sc, hsc, h⟩ := except_bind_ok h
  obtain ⟨x8, h8, h⟩ := except_bind_ok h
  obtain ⟨x9, h9, h⟩ := except_bind_ok h
  obtain ⟨x10, h10, h⟩ := except_bind_ok h
  obtain ⟨x11, h11, h⟩ := except_bind_ok h
  obtain ⟨x12, h12, h⟩ := except_bind_ok h
  obtain ⟨x13, h13, h⟩ := except_bind_ok h
  have hr := (Except.ok.injEq _ _).mp h
  rw [← hr] at *
  rw [hsc]

/-- C2: two well-formed records with the same subject identifier and the
same set of custom-attribute (name, value) pairs — in any order — get the
same grouping key from `buildConfigKey`. -/
theorem claim_C2_key_order_independent (r1 r2 : EvalResult)
    (hmodel : r1.model = r2.model)
    (hperm : List.Perm r1.customFields r2.customFields)
    (hnd : (r1.customFields.map Prod.fst).Nodup) :
    buildConfigKey r1 = buildConfigKey r2 := by
  have hnames : keyFieldNames r1 = keyFieldNames r2 := by
    unfold keyFieldNames
    exact sortStrings_eq_of_perm ((hperm.map Prod.fst).filter _)
  unfold buildConfigKey
  rw [hmodel, hnames]
  apply foldl_key_value_congr
  intro n _
  unfold keyFieldValue
  rw [perm_lookup_eq hperm hnd n]

theorem claim_C2_witness :
    (({ baseRec with customFields :=
        [("a", .scalar (.str "1")), ("b", .scalar (.str "2"))] } : EvalResult).model =
      ({ baseRec with customFields :=
        [("b", .scalar (.str "2")), ("a", .scalar (.str "1"))] } : EvalResult).model) ∧
    buildConfigKey { baseRec with customFields :=
        [("a", .scalar (.str "1")), ("b", .scalar (.str "2"))] } =
      buildConfigKey { baseRec with customFields :=
        [("b", .scalar (.str "2")), ("a", .scalar (.str "1"))] } :=
  ⟨rfl, claim_C2_key_order_independent _ _ rfl (List.Perm.swap _ _ _) (by decide)⟩

/-- C9: the grouping key depends on a custom field value only through its
`%v` text, never through its inferred type: records whose attribute names and
formatted values agree get identical keys, whatever the value types were. -/
theorem claim_C9_format_uniform (r1 r2 : EvalResult)
    (hmodel : r1.model = r2.model)
    (hfmt : r1.customFields.map (fun p => (p.1, formatRawField p.2)) =
            r2.customFields.map (fun p => (p.1, formatRawField p.2))) :
    buildConfigKey r1 = buildConfigKey r2 := by
  have hnames2 : r1.customFields.map Prod.fst = r2.customFields.map Prod.fst := by
    have := congrArg (List.map Prod.fst) hfmt
    rw [List.map_map, List.map_map] at this
    exact this
  have hnames : keyFieldNames r1 = keyFieldNames r2 := by
    unfold keyFieldNames
    rw [hnames2]
  have hval : ∀ n, keyFieldValue r1 n = keyFieldValue r2 n := by
    intro n
    have hl : (r1.customFields.lookup n).map formatRawField =
        (r2.customFields.lookup n).map formatRawField := by
      rw [← lookup_map_value formatRawField r1.customFields n,
        ← lookup_map_value formatRawField r2.customFields n, hfmt]
    unfold keyFieldValue
    cases hc1 : r1.customFields.lookup n with
    | none =>
      cases hc2 : r2.customFields.lookup n with
      | none => rfl
      | some v =>
        rw [hc1, hc2] at hl
        exact absurd hl (by simp)
    | some v =>
      cases hc2 : r2.customFields.lookup n with
      | none =>
        rw [hc1, hc2] at hl
        exact absurd hl (by simp)
      | some w =>
        rw [hc1, hc2] at hl
        have hvw : formatRawField v = formatRawField w := by
          simpa using hl
        show formatRawField v = formatRawField w
        exact hvw
  unfold buildConfigKey
  rw [hmodel, hnames]
  exact foldl_key_value_congr _ _ _ _ (fun n _ => hval n)

theorem claim_C9_witness :
    (({ baseRec with customFields := [("temp", .scalar (.num 5))] } : EvalResult).model =
      ({ baseRec with customFields := [("temp", .scalar (.str "5"))] } : EvalResult).model) ∧
    (({ baseRec with customFields := [("temp", RawField.scalar (.num 5))] } : EvalResult).customFields ≠
      ({ baseRec with customFields := [("temp", RawField.scalar (.str "5"))] } : EvalResult).customFields) ∧
    buildConfigKey { baseRec with customFields := [("temp", .scalar (.num 5))] } =
      buildConfigKey { baseRec with customFields := [("temp", .scalar (.str "5"))] } :=
  ⟨rfl, by decide,
    claim_C9_format_uniform _ _ rfl (by decide)⟩
-- infra block 10: counting decoded records and group members
lemma parse_length_add_skipped (lines : List LineInput) :
    (ParseJSONL lines).length + skippedCount lines = lines.length := by
  induction lines with
  | nil => rfl
  | cons l ls ih =>
    unfold ParseJSONL skippedCount at *
    cases hl : decodeLine l with
    | none =>
      rw [List.filterMap_cons, hl, List.filter_cons]
      simp only [hl, Option.isNone_none, if_true]
      rw [List.length_cons, List.length_cons, ← ih]
      ring
    | some r =>
      rw [List.filterMap_cons, hl, List.filter_cons]
      simp only [hl, Option.isNone_some, Bool.false_eq_true, if_false]
      rw [List.length_cons, List.length_cons, ← ih]
      ring

lemma testCount_elim_eq (results : List EvalResult) (k : String)
    (hk : k ∈ (CalculateStats results).models) :
    ((CalculateStats results).modelStats k).elim 0 (fun s => s.testCount) =
      (groupScores results k).length := by
  rw [modelStats_eq_finalize results k hk]
  unfold finalizeStat
  rw [acc_configScores]
  cases hgs : groupScores results k with
  | nil => exact absurd hgs (groupScores_ne_nil results k hk)
  | cons s0 rest => simp

lemma groupScores_length_eq_count (results : List EvalResult) (k : String) :
    (groupScores results k).length = (results.map buildConfigKey).count k := by
  unfold groupScores
  rw [List.length_map, ← List.countP_eq_length_filter]
  show _ = List.countP (fun a => a == k) _
  rw [List.countP_map]
  apply List.countP_congr
  intro r _
  show decide (buildConfigKey r = k) = true ↔ (buildConfigKey r == k) = true
  rw [decide_eq_true_eq, beq_iff_eq]

lemma models_perm_dedup (results : List EvalResult) :
    List.Perm (CalculateStats results).models (results.map buildConfigKey).dedup := by
  apply List.perm_of_nodup_nodup_toFinset_eq (models_nodup results)
    (List.nodup_dedup _)
  ext a
  rw [List.mem_toFinset, List.mem_toFinset, List.mem_dedup, mem_models_iff, List.mem_map]

lemma sum_testCounts_eq (results : List EvalResult) :
    ((CalculateStats results).models.map
      (fun k => ((CalculateStats results).modelStats k).elim 0 (fun s => s.testCount))).sum =
      results.length := by
  have hcongr : ((CalculateStats results).models.map
      (fun k => ((CalculateStats results).modelStats k).elim 0 (fun s => s.testCount))).sum =
      ((CalculateStats results).models.map
        (fun k => (results.map buildConfigKey).count k)).sum := by
    congr 1
    apply List.map_congr_left
    intro k hk
    rw [testCount_elim_eq results k hk, groupScores_length_eq_count]
  rw [hcongr]
  have hperm := (models_perm_dedup results).map
    (fun k => (results.map buildConfigKey).count k)
  rw [hperm.sum_eq]
  have := List.sum_map_count_dedup_eq_length (results.map buildConfigKey)
  rw [this]
  exact List.length_map results buildConfigKey
/-- C5: for a non-empty record list the published global mean is the sum of
all records' primary metric values divided by the number of records — the
unweighted per-record mean computed by the single pass, not a mean of
per-group means. -/
theorem claim_C5_global_mean (results : List EvalResult) (hne : results ≠ []) :
    (CalculateStats results).avgScore =
      (results.map (fun r => r.scores.combined)).sum / (results.length : ℚ) :=
  avgScore_eq results (fun h => hne (List.isEmpty_iff.mp h))

theorem claim_C5_witness :
    ([baseRec, { baseRec with scores := ⟨0, []⟩ }] ≠ ([] : List EvalResult)) ∧
    (CalculateStats [baseRec, { baseRec with scores := ⟨0, []⟩ }]).avgScore =
      (([baseRec, { baseRec with scores := ⟨0, []⟩ }].map
        (fun r => r.scores.combined)).sum /
        (([baseRec, { baseRec with scores := ⟨0, []⟩ }].length : ℕ) : ℚ)) :=
  ⟨by decide, claim_C5_global_mean _ (by decide)⟩

/-- C8: the "since T" filter keeps exactly the records whose timestamp
compares strictly greater than T in Go's byte-lexicographic string order —
every such record is kept, nothing else is kept, and multiplicities are
preserved (no duplication, no omission). -/
theorem claim_C8_since_filter (ts : String) (results : List EvalResult) :
    (∀ r, r ∈ evalsSince results ts ↔ (r ∈ results ∧ strLt ts r.timestamp = true)) ∧
    (∀ r, (evalsSince results ts).count r =
      if strLt ts r.timestamp = true then results.count r else 0) := by
  constructor
  · intro r
    unfold evalsSince
    rw [List.mem_filter]
  · intro r
    unfold evalsSince
    by_cases h : strLt ts r.timestamp = true
    · rw [if_pos h]
      exact List.count_filter h
    · rw [if_neg h]
      rw [List.count_eq_zero]
      intro hmem
      exact h ((List.mem_filter.mp hmem).2)

/-- C7: when every configured store decodes to zero records, the refresh
controller publishes the explicit empty aggregation result — zero totals,
empty collections — without an error, and the published value does not
depend on the previously published result. -/
theorem claim_C7_empty_input (stores : List StoreInput) (prev : DashboardData)
    (hempty : allStoreResults stores = []) :
    reloadData stores prev = Except.ok (CalculateStats []) ∧
    (CalculateStats []).totalTests = 0 ∧
    (CalculateStats []).avgScore = 0 ∧
    (CalculateStats []).models = [] ∧
    (CalculateStats []).results = [] ∧
    (CalculateStats []).customScores = [] ∧
    (CalculateStats []).customFieldNames = [] ∧
    (∀ k, (CalculateStats []).modelStats k = none) ∧
    (∀ n, (CalculateStats []).customFieldTypes n = none) := by
  refine ⟨?_, rfl, rfl, rfl, rfl, rfl, rfl, fun k => rfl, fun n => rfl⟩
  unfold reloadData
  rw [hempty]
  rfl

theorem claim_C7_witness :
    allStoreResults [Except.ok [(none : LineInput)], Except.error ()] = [] ∧
    reloadData [Except.ok [(none : LineInput)], Except.error ()]
        (CalculateStats [baseRec]) = Except.ok (CalculateStats []) :=
  ⟨by decide,
    (claim_C7_empty_input [Except.ok [(none : LineInput)], Except.error ()]
      (CalculateStats [baseRec]) (by decide)).1⟩

/-- C6 counterexample: on an input with one structurally malformed line, one
line lacking a numeric `combined`, and one well-formed line, the decoded
total is 2, not lines − (skipped + semantically-invalid) = 3 − (1 + 1) = 1:
the code does not drop semantically-invalid lines, so the claimed identity
fails. -/
theorem claim_C6_counterexample :
    (CalculateStats (ParseJSONL [none, some noCombinedLine, some goodLine])).totalTests = 2 ∧
    skippedCount [none, some noCombinedLine, some goodLine] = 1 ∧
    specSemanticallyInvalidCount [none, some noCombinedLine, some goodLine] = 1 ∧
    ([none, some noCombinedLine, some goodLine] : List LineInput).length = 3 ∧
    (CalculateStats (ParseJSONL [none, some noCombinedLine, some goodLine])).totalTests ≠
      ([none, some noCombinedLine, some goodLine] : List LineInput).length -
        (skippedCount [none, some noCombinedLine, some goodLine] +
          specSemanticallyInvalidCount [none, some noCombinedLine, some goodLine]) := by
  refine ⟨?_, by decide, by decide, by decide, ?_⟩
  · rw [totalTests_eq]
    decide
  · rw [totalTests_eq]
    decide

/-- C6 (amended): the sum of the per-group member counts equals the decoded
record total, which equals the number of input lines minus only the
structurally skipped lines; no line is dropped for semantic reasons. -/
theorem claim_C6_counts (lines : List LineInput) :
    ((CalculateStats (ParseJSONL lines)).models.map
      (fun k => ((CalculateStats (ParseJSONL lines)).modelStats k).elim 0
        (fun s => s.testCount))).sum =
      (CalculateStats (ParseJSONL lines)).totalTests ∧
    (CalculateStats (ParseJSONL lines)).totalTests + skippedCount lines = lines.length := by
  constructor
  · rw [sum_testCounts_eq, totalTests_eq]
  · rw [totalTests_eq]
    exact parse_length_add_skipped lines
/-- C10: every group present in the published statistics has at least one
member, its count is the number of member records, its MinScore and MaxScore
are the least and greatest primary-metric values among the members, and the
group mean lies between them. -/
theorem claim_C10_group_invariants (results : List EvalResult) (k : String)
    (hk : k ∈ (CalculateStats results).models) :
    ∃ stat, (CalculateStats results).modelStats k = some stat ∧
      1 ≤ stat.testCount ∧
      stat.testCount = (groupScores results k).length ∧
      stat.minScore ∈ groupScores results k ∧
      (∀ s ∈ groupScores results k, stat.minScore ≤ s) ∧
      stat.maxScore ∈ groupScores results k ∧
      (∀ s ∈ groupScores results k, s ≤ stat.maxScore) ∧
      stat.minScore ≤ stat.avgScore ∧ stat.avgScore ≤ stat.maxScore := by
  rw [modelStats_eq_finalize results k hk]
  unfold finalizeStat
  rw [acc_configScores]
  cases hgs : groupScores results k with
  | nil => exact absurd hgs (groupScores_ne_nil results k hk)
  | cons s0 rest =>
    refine ⟨_, rfl, ?_, ?_, ?_, ?_, ?_, ?_, ?_, ?_⟩
    · show 1 ≤ (s0 :: rest).length
      simp
    · show (s0 :: rest).length = _
      rfl
    · show (s0 :: rest).foldl (fun m s => if s < m then s else m) s0 ∈ s0 :: rest
      rcases foldlMin_mem (s0 :: rest) s0 with h | h
      · rw [h]
        exact List.mem_cons_self _ _
      · exact h
    · intro s hs
      show (s0 :: rest).foldl (fun m s => if s < m then s else m) s0 ≤ s
      exact (foldlMin_le (s0 :: rest) s0).2 s hs
    · show (s0 :: rest).foldl (fun m s => if m < s then s else m) s0 ∈ s0 :: rest
      rcases foldlMax_mem (s0 :: rest) s0 with h | h
      · rw [h]
        exact List.mem_cons_self _ _
      · exact h
    · intro s hs
      show s ≤ (s0 :: rest).foldl (fun m s => if m < s then s else m) s0
      exact (foldlMax_ge (s0 :: rest) s0).2 s hs
    · show (s0 :: rest).foldl (fun m s => if s < m then s else m) s0 ≤
        ((s0 :: rest).foldl (fun a s => a + s) 0) / (((s0 :: rest).length : ℕ) : ℚ)
      rw [foldl_add_eq, zero_add]
      exact le_div_length_of_all_le (s0 :: rest) (List.cons_ne_nil s0 rest) _
        ((foldlMin_le (s0 :: rest) s0).2)
    · show ((s0 :: rest).foldl (fun a s => a + s) 0) / (((s0 :: rest).length : ℕ) : ℚ) ≤
        (s0 :: rest).foldl (fun m s => if m < s then s else m) s0
      rw [foldl_add_eq, zero_add]
      exact div_length_le_of_all_le (s0 :: rest) (List.cons_ne_nil s0 rest) _
        ((foldlMax_ge (s0 :: rest) s0).2)

theorem claim_C10_witness :
    "m" ∈ (CalculateStats [baseRec, { baseRec with scores := ⟨0, []⟩ }]).models ∧
    (∃ stat, (CalculateStats [baseRec, { baseRec with scores := ⟨0, []⟩ }]).modelStats "m" =
        some stat ∧
      1 ≤ stat.testCount ∧
      stat.testCount =
        (groupScores [baseRec, { baseRec with scores := ⟨0, []⟩ }] "m").length ∧
      stat.minScore ∈ groupScores [baseRec, { baseRec with scores := ⟨0, []⟩ }] "m" ∧
      (∀ s ∈ groupScores [baseRec, { baseRec with scores := ⟨0, []⟩ }] "m",
        stat.minScore ≤ s) ∧
      stat.maxScore ∈ groupScores [baseRec, { baseRec with scores := ⟨0, []⟩ }] "m" ∧
      (∀ s ∈ groupScores [baseRec, { baseRec with scores := ⟨0, []⟩ }] "m",
        s ≤ stat.maxScore) ∧
      stat.minScore ≤ stat.avgScore ∧ stat.avgScore ≤ stat.maxScore) :=
  ⟨by decide, claim_C10_group_invariants _ "m" (by decide)⟩

/-- C4: a group's published mean for a secondary metric is the sum of the
values supplied for that metric by the group's members, divided by the number
of members that supplied one — members without the metric neither contribute
nor enlarge the divisor; with no contributors the metric is absent from the
group's map. -/
theorem claim_C4_secondary_metric_mean (results : List EvalResult) (k st : String)
    (hnd : ∀ r ∈ results, (r.scores.custom.map Prod.fst).Nodup)
    (hk : k ∈ (CalculateStats results).models) :
    ((CalculateStats results).modelStats k).bind (fun s => s.customScores st) =
      (if groupCustomScores results k st = [] then none
       else some ((groupCustomScores results k st).sum /
         ((groupCustomScores results k st).length : ℚ))) := by
  rw [modelStats_eq_finalize results k hk]
  unfold finalizeStat
  rw [acc_configScores]
  cases hgs : groupScores results k with
  | nil => exact absurd hgs (groupScores_ne_nil results k hk)
  | cons s0 rest =>
    rw [Option.some_bind]
    show (match (results.foldl recordStep initAcc).configCustomScores k st with
      | [] => none
      | l => some ((l.foldl (fun a v => a + v) 0) / (l.length : ℚ))) = _
    rw [acc_configCustomScores results k st hnd]
    cases hcs : groupCustomScores results k st with
    | nil => rfl
    | cons c0 cs =>
      show some _ = some _
      rw [foldl_add_eq, zero_add]

theorem claim_C4_witness :
    (∀ r ∈ [{ baseRec with scores := ⟨1, [("acc", 1)]⟩ }, baseRec],
      ((r : EvalResult).scores.custom.map Prod.fst).Nodup) ∧
    "m" ∈ (CalculateStats [{ baseRec with scores := ⟨1, [("acc", 1)]⟩ }, baseRec]).models ∧
    ((CalculateStats [{ baseRec with scores := ⟨1, [("acc", 1)]⟩ }, baseRec]).modelStats
        "m").bind (fun s => s.customScores "acc") =
      (if groupCustomScores [{ baseRec with scores := ⟨1, [("acc", 1)]⟩ }, baseRec] "m" "acc"
          = [] then none
       else some ((groupCustomScores
           [{ baseRec with scores := ⟨1, [("acc", 1)]⟩ }, baseRec] "m" "acc").sum /
         ((groupCustomScores
           [{ baseRec with scores := ⟨1, [("acc", 1)]⟩ }, baseRec] "m" "acc").length : ℚ))) :=
  ⟨by decide, by decide, claim_C4_secondary_metric_mean _ "m" "acc" (by decide) (by decide)⟩
/-- C1 counterexample: a structurally valid line whose `scores` object lacks
`combined` is NOT dropped: `ParseJSONL` decodes it (skipping nothing) and it
counts in the decoded total, contrary to the claim that it is skipped. -/
theorem claim_C1_counterexample :
    ParseJSONL [some noCombinedLine] ≠ [] ∧
    skippedCount [some noCombinedLine] = 0 ∧
    (CalculateStats (ParseJSONL [some noCombinedLine])).totalTests = 1 :=
  ⟨by decide, by decide, by decide⟩

/-- C1 (amended): a line that decodes structurally but whose `scores` object
has no numeric `combined` entry is kept, not skipped: it decodes to a record
whose primary metric defaults to 0 and it contributes to the decoded total
(and hence to its group). -/
theorem claim_C1_missing_metric_kept (fs : RawObj) (entries : List (String × GoVal))
    (r : EvalResult)
    (hscores : fs.lookup "scores" = some (.obj entries))
    (hnonum : ∀ q : ℚ, entries.lookup "combined" ≠ some (.num q))
    (hdec : decodeRecord fs = .ok r) :
    r.scores.combined = 0 ∧ ParseJSONL [some fs] = [r] ∧
    (CalculateStats (ParseJSONL [some fs])).totalTests = 1 := by
  have hsc := decodeRecord_scores hdec
  rw [hscores] at hsc
  unfold decodeScores at hsc
  have hcomb : r.scores.combined = 0 := by
    have hinj := (Except.ok.injEq _ _).mp hsc
    rw [← hinj]
    show (match entries.lookup "combined" with
      | some (.num q) => q
      | _ => (0 : ℚ)) = (0 : ℚ)
    cases hl : entries.lookup "combined" with
    | none => rfl
    | some v =>
      cases v with
      | num q => exact absurd hl (hnonum q)
      | str s => rfl
      | bool b => rfl
      | null => rfl
  have hparse : ParseJSONL [some fs] = [r] := by
    show List.filterMap decodeLine [some fs] = [r]
    have hline : decodeLine (some fs) = some r := by
      show (decodeRecord fs).toOption = some r
      rw [hdec]
      rfl
    rw [List.filterMap_cons, hline]
    rfl
  refine ⟨hcomb, hparse, ?_⟩
  rw [totalTests_eq, hparse]
  rfl

theorem claim_C1_witness :
    noCombinedLine.lookup "scores" = some (.obj [("accuracy", GoVal.num 1)]) ∧
    decodeRecord noCombinedLine = Except.ok noCombRec ∧
    noCombRec.scores.combined = 0 ∧
    ParseJSONL [some noCombinedLine] = [noCombRec] ∧
    (CalculateStats (ParseJSONL [some noCombinedLine])).totalTests = 1 := by
  have h := claim_C1_missing_metric_kept noCombinedLine [("accuracy", GoVal.num 1)]
    noCombRec
    rfl
    (by
      intro q hq
      rw [show List.lookup "combined" [("accuracy", GoVal.num 1)] = (none : Option GoVal)
        from rfl] at hq
      exact Option.noConfusion hq)
    rfl
  exact ⟨rfl, rfl, h.1, h.2.1, h.2.2⟩

/-- C3 counterexample: two records with the same subject and genuinely
different custom-attribute (name, value) sets — `temp` bound to the number 5
in one and to the text "5" in the other — receive the same grouping key, so
`buildConfigKey` does not separate every pair of distinct attribute sets. -/
theorem claim_C3_counterexample :
    (({ baseRec with customFields := [("temp", RawField.scalar (.num 5))] } : EvalResult).model =
      ({ baseRec with customFields := [("temp", RawField.scalar (.str "5"))] } : EvalResult).model) ∧
    (({ baseRec with customFields := [("temp", RawField.scalar (.num 5))] } : EvalResult).customFields ≠
      ({ baseRec with customFields := [("temp", RawField.scalar (.str "5"))] } : EvalResult).customFields) ∧
    ("temp" ∉ excludedFieldNames) ∧
    buildConfigKey { baseRec with customFields := [("temp", RawField.scalar (.num 5))] } =
      buildConfigKey { baseRec with customFields := [("temp", RawField.scalar (.str "5"))] } :=
  ⟨rfl, by decide, by decide, by decide⟩

/-- C3 (amended): for records sharing a subject identifier, with attribute
names free of the delimiters `|` and `=` and formatted attribute values free
of `|`, the grouping key separates records exactly by their sorted
(name, formatted value) attribute pairs: keys coincide iff those pairs
coincide — distinct formatted configurations land in distinct groups and
identical ones collapse into one. -/
theorem claim_C3_keys_separate_configs (r1 r2 : EvalResult)
    (hmodel : r1.model = r2.model)
    (hg1 : ∀ p ∈ keyPairs r1, GoodPair p)
    (hg2 : ∀ p ∈ keyPairs r2, GoodPair p) :
    buildConfigKey r1 = buildConfigKey r2 ↔ keyPairs r1 = keyPairs r2 :=
  buildConfigKey_eq_iff_keyPairs r1 r2 hmodel hg1 hg2

theorem claim_C3_witness :
    (∀ p ∈ keyPairs { baseRec with
        customFields := [("temp", RawField.scalar (.num 5))] }, GoodPair p) ∧
    (∀ p ∈ keyPairs { baseRec with
        customFields := [("temp", RawField.scalar (.str "7")),
          ("top_k", RawField.scalar (.num 2))] }, GoodPair p) ∧
    (buildConfigKey { baseRec with customFields := [("temp", RawField.scalar (.num 5))] } =
        buildConfigKey { baseRec with
          customFields := [("temp", RawField.scalar (.str "7")),
            ("top_k", RawField.scalar (.num 2))] } ↔
      keyPairs { baseRec with customFields := [("temp", RawField.scalar (.num 5))] } =
        keyPairs { baseRec with
          customFields := [("temp", RawField.scalar (.str "7")),
            ("top_k", RawField.scalar (.num 2))] }) :=
  ⟨by decide, by decide,
    claim_C3_keys_separate_configs _ _ rfl (by decide) (by decide)⟩
